import Mathlib

/-!
Verification development for `process_workout_health_data.py`.

The script correlates GPS-track workout windows with Apple-Health samples:
it extracts a (first, last) time window per track file, normalizes the health
table's `"YYYY-MM-DD HH:MM:SS ±HHMM"` timestamps, selects the samples fully
contained in each window, keeps only groups containing a `VO2Max` row, and
re-partitions each per-type subgroup with shared midpoint boundaries.

Modelling conventions:
* absolute time instants are rationals (seconds); rationals make the midpoint
  arithmetic of `_getMidDates` (halving a time difference) exact;
* pandas/Python exceptions (`ValueError`, `TypeError`) are `Except.error`;
* `pd.to_numeric(..., errors='coerce')` is modeled at its interface: a raw
  row's `value` field is `some v` when the raw text parses as a number and
  `none` otherwise;
* `pd.sort_values` is modeled by `List.insertionSort` (both produce a list
  sorted by `startDate`; no property below depends on the order of ties).
-/

/-- Absolute time instants, modeled as rational numbers of seconds since the
proleptic-Gregorian epoch. -/
abbrev Time := ℚ

/-- Wall-clock fields plus a fixed UTC offset, mirroring the timezone-aware
`datetime` built by `_parse_date_with_offset` (`dt.replace(tzinfo=...)` keeps
the parsed wall-clock fields and attaches the offset). -/
structure BDateTime where
  year : Nat
  month : Nat
  day : Nat
  hour : Nat
  minute : Nat
  second : Nat
  offsetMinutes : Int
deriving DecidableEq, Repr

/-- Numeric value of a decimal digit character. -/
def c2n (c : Char) : Nat := c.toNat - 48

/-- Value of a fixed-width two-digit decimal field, as read by `int` /
`strptime` on the encoding-B format. -/
def val2 (c1 c2 : Char) : Nat := 10 * c2n c1 + c2n c2

/-- Value of a fixed-width four-digit decimal field. -/
def val4 (c1 c2 c3 c4 : Char) : Nat :=
  1000 * c2n c1 + 100 * c2n c2 + 10 * c2n c3 + c2n c4

/-- Leap-year test of the proleptic Gregorian calendar, as in Python's
`calendar.isleap` used by `datetime`. -/
def isLeap (y : Nat) : Bool :=
  y % 4 == 0 && (y % 100 != 0 || y % 400 == 0)

/-- Days in a month, as validated by the `datetime` constructor. -/
def daysInMonth (y m : Nat) : Nat :=
  if m = 2 then (if isLeap y then 29 else 28)
  else if m = 4 ∨ m = 6 ∨ m = 9 ∨ m = 11 then 30
  else 31

/-- Days in the months strictly before month `m` of year `y`. -/
def daysBeforeMonth (y m : Nat) : Nat :=
  (List.range (m - 1)).foldl (fun acc i => acc + daysInMonth y (i + 1)) 0

/-- Days strictly before January 1 of year `y` (year 1 is day 0), as in
`datetime.toordinal`. -/
def daysBeforeYear (y : Nat) : Int :=
  let n : Int := (y : Int) - 1
  n * 365 + n / 4 - n / 100 + n / 400

/-- Proleptic-Gregorian ordinal of a calendar date, as `datetime.toordinal`. -/
def toOrdinal (y m d : Nat) : Int :=
  daysBeforeYear y + (daysBeforeMonth y m : Int) + (d : Int)

/-- Absolute instant of a timezone-aware value: wall-clock seconds minus the
UTC offset.  Python compares timezone-aware `datetime`s by this instant. -/
def toInstant (t : BDateTime) : Time :=
  ((toOrdinal t.year t.month t.day * 86400
    + (t.hour : Int) * 3600 + (t.minute : Int) * 60 + (t.second : Int)
    - t.offsetMinutes * 60 : Int) : ℚ)

/-- `datetime.strptime(dt_str, '%Y-%m-%d %H:%M:%S')` on the fixed-width form:
the nineteen characters must be four digits, `-`, two digits, `-`, two digits,
space, and three colon-separated two-digit fields.  (`strptime` additionally
accepts some non-zero-padded variants; the health export format is
fixed-width, so only this shape is modeled.)  Field-range validation is done
by the caller, as `strptime`/`datetime` do. -/
def parseDT (cs : List Char) : Option (Nat × Nat × Nat × Nat × Nat × Nat) :=
  match cs with
  | [y1, y2, y3, y4, '-', o1, o2, '-', d1, d2, ' ', h1, h2, ':', n1, n2, ':', s1, s2] =>
    if y1.isDigit && y2.isDigit && y3.isDigit && y4.isDigit && o1.isDigit && o2.isDigit
        && d1.isDigit && d2.isDigit && h1.isDigit && h2.isDigit && n1.isDigit && n2.isDigit
        && s1.isDigit && s2.isDigit then
      some (val4 y1 y2 y3 y4, val2 o1 o2, val2 d1 d2, val2 h1 h2, val2 n1 n2, val2 s1 s2)
    else none
  | _ => none

/-- Offset parsing of `_parse_date_with_offset`:
`int(offset_str[1:3]) * 60 + int(offset_str[3:5])`, negated exactly when the
leading character is `-` (any other leading character leaves it positive). -/
def parseOff (cs : List Char) : Option Int :=
  match cs with
  | [sg, h1, h2, m1, m2] =>
    if h1.isDigit && h2.isDigit && m1.isDigit && m2.isDigit then
      let m : Int := (val2 h1 h2 : Int) * 60 + (val2 m1 m2 : Int)
      some (if sg = '-' then -m else m)
    else none
  | _ => none

/-- `_parse_date_with_offset` (lines 66-81): slice `date_str[:-6]` and
`date_str[-5:]` (the character between the two slices is never examined),
parse the wall-clock fields and the signed offset, and validate ranges as
`strptime`, the `datetime` constructor (month 1-12, day 1-daysInMonth,
hour 0-23, minute/second 0-59, year at least 1) and the `timezone`
constructor (strictly less than 24 hours of offset) do.  A Python
`ValueError` is modeled as `none`. -/
def parse_date_with_offset (s : String) : Option BDateTime :=
  let cs := s.data
  let dtc := cs.take (cs.length - 6)
  let offc := cs.drop (cs.length - 5)
  match parseDT dtc, parseOff offc with
  | some (y, mo, d, h, mi, sec), some off =>
    if 1 ≤ y ∧ 1 ≤ mo ∧ mo ≤ 12 ∧ 1 ≤ d ∧ d ≤ daysInMonth y mo
        ∧ h ≤ 23 ∧ mi ≤ 59 ∧ sec ≤ 59 ∧ off.natAbs ≤ 1439 then
      some ⟨y, mo, d, h, mi, sec, off⟩
    else none
  | _, _ => none

/-- Two-digit zero-padded decimal rendering. -/
def pad2 (n : Nat) : List Char := [Nat.digitChar (n / 10), Nat.digitChar (n % 10)]

/-- Four-digit zero-padded decimal rendering. -/
def pad4 (n : Nat) : List Char :=
  [Nat.digitChar (n / 1000), Nat.digitChar (n / 100 % 10),
   Nat.digitChar (n / 10 % 10), Nat.digitChar (n % 10)]

/-- Modelled from the spec: re-rendering a timezone-aware value in the
encoding-B format `"YYYY-MM-DD HH:MM:SS ±HHMM"`.  The spec's round-trip
property needs a renderer; the script itself never re-renders. -/
def renderB (t : BDateTime) : String :=
  ⟨pad4 t.year ++ '-' :: pad2 t.month ++ '-' :: pad2 t.day
    ++ ' ' :: pad2 t.hour ++ ':' :: pad2 t.minute ++ ':' :: pad2 t.second
    ++ ' ' :: (if t.offsetMinutes < 0 then '-' else '+')
    :: (pad2 (t.offsetMinutes.natAbs / 60) ++ pad2 (t.offsetMinutes.natAbs % 60))⟩

/-- Component ranges of a representable encoding-B value: what the `datetime`
and `timezone` constructors accept, with a four-digit year. -/
def validB (t : BDateTime) : Prop :=
  1 ≤ t.year ∧ t.year ≤ 9999 ∧ 1 ≤ t.month ∧ t.month ≤ 12 ∧ 1 ≤ t.day
    ∧ t.day ≤ daysInMonth t.year t.month ∧ t.hour ≤ 23 ∧ t.minute ≤ 59
    ∧ t.second ≤ 59 ∧ t.offsetMinutes.natAbs ≤ 1439

instance (t : BDateTime) : Decidable (validB t) := by
  unfold validB; infer_instance

/-- `extract_times_from_gpx` (lines 27-52) reduced to its time logic: the
collected point timestamps (modeled by the absolute instants
`gpx_time_string_to_datetime` assigns them, applied pointwise) are reduced to
the first- and last-encountered timestamp, or `(None, None)` when the file
has no points. -/
def extract_times_from_gpx (all_timestamps : List Time) : Option Time × Option Time :=
  (all_timestamps.head?, all_timestamps.getLast?)

/-- One raw health-table row.  The `value` field models the result of
`pd.to_numeric(..., errors='coerce')` on the raw text (`none` when the text
is not numeric); `startDate`/`endDate` are the raw encoding-B strings;
`extra` stands for all other input columns. -/
structure RawRow where
  type : String
  value : Option ℚ
  startDate : String
  endDate : String
  extra : List (String × String)
deriving DecidableEq, Repr

/-- One normalized health sample: numeric value and absolute-time bounds. -/
structure Sample where
  type : String
  value : ℚ
  startDate : Time
  endDate : Time
  extra : List (String × String)
deriving DecidableEq, Repr

/-- One selected sample after `workout_date` tagging (line 145). -/
structure TaggedSample where
  type : String
  value : ℚ
  startDate : Time
  endDate : Time
  extra : List (String × String)
  workout_date : String
deriving DecidableEq, Repr

/-- One output row: the tagged sample plus the two assigned midpoint
boundaries (lines 91-98). -/
structure OutRow where
  type : String
  value : ℚ
  startDate : Time
  endDate : Time
  extra : List (String × String)
  workout_date : String
  midStartDate : Time
  midEndDate : Time
deriving DecidableEq, Repr

/-- Normalization of the retained rows (lines 127-130): parse both date
columns of every row with `_parse_date_with_offset`; any failure is a fatal
`ValueError` (the caller does not catch). -/
def prepRows : List RawRow → Except String (List Sample)
  | [] => Except.ok []
  | r :: rest =>
    match r.value, parse_date_with_offset r.startDate, parse_date_with_offset r.endDate with
    | some v, some sd, some ed =>
      match prepRows rest with
      | Except.error e => Except.error e
      | Except.ok tl => Except.ok (⟨r.type, v, toInstant sd, toInstant ed, r.extra⟩ :: tl)
    | _, _, _ => Except.error "ParseError"

/-- Lines 123-130: coerce `value` to numeric and drop the rows where that
fails (`pd.to_numeric(..., errors='coerce')` then `isna` filtering), then
normalize the two date columns of the remaining rows. -/
def prepareHealth (rows : List RawRow) : Except String (List Sample) :=
  prepRows (rows.filter (fun r => r.value.isSome))

/-- One workout window as recorded by `process_workout_routes_dir` (line 61):
both bounds are `None` for a track file with no points. -/
structure Window where
  startDate : Option Time
  endDate : Option Time
deriving DecidableEq, Repr

/-- Line 140: the containment mask
`(startDate >= w.startDate) & (endDate <= w.endDate)`.  Comparing a nonempty
datetime column with `None` raises `TypeError` in pandas; on an empty column
the comparison yields an empty mask and no error. -/
def selectRows (health : List Sample) (w : Window) : Except String (List Sample) :=
  match w.startDate, w.endDate with
  | some ws, some we =>
    Except.ok (health.filter (fun s => decide (ws ≤ s.startDate) && decide (s.endDate ≤ we)))
  | _, _ =>
    if health.isEmpty then Except.ok []
    else Except.error "TypeError: comparison between datetime and NoneType"

/-- Line 145: tag a selected sample with the owning workout identifier. -/
def tagRow (wid : String) (s : Sample) : TaggedSample :=
  ⟨s.type, s.value, s.startDate, s.endDate, s.extra, wid⟩

/-- Distinct values in first-occurrence order, as `pandas.Series.unique`:
the head is kept and every later duplicate of it is removed. -/
def uniqueTypes : List String → List String
  | [] => []
  | t :: ts => t :: (uniqueTypes ts).filter (fun x => x != t)

/-- Comparison of samples by `startDate` (timezone-aware datetimes compare by
absolute instant). -/
def leByStart (a b : TaggedSample) : Prop := a.startDate ≤ b.startDate

instance : DecidableRel leByStart := fun a b =>
  inferInstanceAs (Decidable (a.startDate ≤ b.startDate))

instance : IsTotal TaggedSample leByStart :=
  ⟨fun a b => le_total a.startDate b.startDate⟩

instance : IsTrans TaggedSample leByStart :=
  ⟨fun _ _ _ hab hbc => le_trans hab hbc⟩

/-- Line 88: sort one type-subgroup ascending by `startDate`
(`sort_values(by='startDate')`; ties may land in any order, which no claim
below depends on). -/
def sortByStart (l : List TaggedSample) : List TaggedSample :=
  l.insertionSort leByStart

/-- The sorted type-subgroup `_getMidDates` builds for one type value. -/
def subOf (df : List TaggedSample) (ty : String) : List TaggedSample :=
  sortByStart (df.filter (fun s => s.type == ty))

/-- Attach the two midpoint boundaries to one row (lines 91-92 and 97-98). -/
def mkOut (s : TaggedSample) (a b : Time) : OutRow :=
  ⟨s.type, s.value, s.startDate, s.endDate, s.extra, s.workout_date, a, b⟩

/-- Line 95: the shifted-difference midpoints
`(startDate.shift(-1) - startDate)/2 + startDate`, with the trailing
undefined entry dropped (`midDates.to_list()[:-1]`): one midpoint per
adjacent pair of sorted start dates. -/
def midpointList (starts : List Time) : List Time :=
  List.zipWith (fun a b => (b - a) / 2 + a) starts starts.tail

/-- Line 96: `dateList = [startDate.iloc[0]] + midpoints + [startDate.iloc[-1]]`. -/
def dateListOf (sub : List TaggedSample) : List Time :=
  match sub with
  | [] => []
  | s0 :: rest =>
    s0.startDate :: (midpointList ((s0 :: rest).map (fun s => s.startDate))
      ++ [((s0 :: rest).getLast (by simp)).startDate])

/-- Lines 97-98: positional assignment `midStartDate = dateList[:-1]`,
`midEndDate = dateList[1:]` over the sorted subgroup. -/
def assignMids (sub : List TaggedSample) (bl : List Time) : List OutRow :=
  List.zipWith (fun s p => mkOut s p.1 p.2) sub (bl.zip bl.tail)

/-- Body of the per-type loop of `_getMidDates` (lines 86-100): on a
single-row subgroup keep the row's own `startDate`/`endDate`; otherwise
assign the boundary sequence positionally.  (The empty branch is unreachable
from `getMidDates`, whose types all occur in the group.) -/
def processType (df : List TaggedSample) (ty : String) : List OutRow :=
  match subOf df ty with
  | [] => []
  | [s] => [mkOut s s.startDate s.endDate]
  | s0 :: s1 :: rest =>
    assignMids (s0 :: s1 :: rest) (dateListOf (s0 :: s1 :: rest))

/-- `_getMidDates` (lines 84-101): per-type processing concatenated over the
distinct types in first-occurrence order (`pd.concat(type_wh_dfs)`). -/
def getMidDates (df : List TaggedSample) : List OutRow :=
  (uniqueTypes (df.map (fun s => s.type))).flatMap (processType df)

/-- The rows of one type in the `_getMidDates` output. -/
def typeRows (df : List TaggedSample) (ty : String) : List OutRow :=
  (getMidDates df).filter (fun r => r.type == ty)

/-- Lines 138-150: the per-window loop — select the contained samples, and
when the distinct types include `VO2Max`, tag the group and append its
midpoint-annotated rows to `res`; otherwise the window contributes nothing. -/
def buildGroups (wins : List (String × Window)) (health : List Sample) :
    Except String (List (List OutRow)) :=
  match wins with
  | [] => Except.ok []
  | (wid, w) :: rest =>
    match selectRows health w with
    | Except.error e => Except.error e
    | Except.ok sel =>
      match buildGroups rest health with
      | Except.error e => Except.error e
      | Except.ok tail =>
        if sel.any (fun s => s.type == "VO2Max") then
          Except.ok (getMidDates (sel.map (tagRow wid)) :: tail)
        else
          Except.ok tail

/-- `filter_health_export` (lines 104-153), with the directory listing and the
CSV already read into its two arguments: prepare the health table, build the
per-window groups, and concatenate them; `pd.concat` on an empty list raises
`ValueError: No objects to concatenate`. -/
def filter_health_export (workout_datetimes : List (String × Window))
    (healthRows : List RawRow) : Except String (List OutRow) :=
  match prepareHealth healthRows with
  | Except.error e => Except.error e
  | Except.ok health =>
    match buildGroups workout_datetimes health with
    | Except.error e => Except.error e
    | Except.ok res =>
      if res.isEmpty then Except.error "ValueError: No objects to concatenate"
      else Except.ok res.flatten

/-! ### Fixtures used by witnesses and counterexamples -/

/-- Concrete health row used by several concrete evaluations. -/
def rawVO2 : RawRow :=
  ⟨"VO2Max", some 40, "2024-01-01 10:05:00 +0000", "2024-01-01 10:06:00 +0000", []⟩

/-- Concrete normalized sample used by several concrete evaluations. -/
def wSample : Sample := ⟨"VO2Max", 40, 300, 360, []⟩

/-! ### C4: containment semantics of the interval join -/

/-- Claim C4: for a workout window with defined bounds, a normalized health
sample is selected into the window's group iff
`sample.startDate ≥ window.startDate` and `sample.endDate ≤ window.endDate`
(fully-contained semantics; in particular, by this characterization a sample
that merely overlaps a boundary is excluded). -/
theorem containment_iff (health : List Sample) (ws we : Time) (sel : List Sample)
    (h : selectRows health ⟨some ws, some we⟩ = Except.ok sel) (s : Sample) :
    s ∈ sel ↔ s ∈ health ∧ (ws ≤ s.startDate ∧ s.endDate ≤ we) := by
  simp only [selectRows, Except.ok.injEq] at h
  subst h
  simp [List.mem_filter, and_assoc]

/-- Witness for `containment_iff` at a concrete window and sample list. -/
theorem containment_iff_witness :
    wSample ∈ [wSample]
      ↔ wSample ∈ [wSample] ∧ ((0 : ℚ) ≤ wSample.startDate ∧ wSample.endDate ≤ 2000) :=
  containment_iff [wSample] 0 2000 [wSample] rfl wSample

/-! ### C2: empty result surfaces a concatenation failure -/

/-- Claim C2: when no workout group qualifies (the retained-group list is
empty), `filter_health_export` does not return an empty output table; the
final concatenation step itself fails with its explicit no-objects error. -/
theorem empty_result_concat_error (wins : List (String × Window)) (rows : List RawRow)
    (health : List Sample) (h1 : prepareHealth rows = Except.ok health)
    (h2 : buildGroups wins health = Except.ok []) :
    filter_health_export wins rows = Except.error "ValueError: No objects to concatenate" := by
  unfold filter_health_export
  rw [h1]
  dsimp only
  rw [h2]
  rfl

/-- Witness for `empty_result_concat_error` on concretely empty inputs. -/
theorem empty_result_concat_error_witness :
    prepareHealth [] = Except.ok [] ∧ buildGroups [] [] = Except.ok []
      ∧ filter_health_export [] []
          = Except.error "ValueError: No objects to concatenate" :=
  ⟨rfl, rfl, empty_result_concat_error [] [] [] rfl rfl⟩

/-! ### C3: a window with undefined bounds crashes the join -/

/-- Claim C3 (refuting evaluation): a workout window whose track file had no
points is recorded with `None` bounds, and the join then compares every
sample timestamp against `None`: with any sample present this raises a
`TypeError` instead of completing normally with an empty contribution. -/
theorem undefined_window_crashes_join :
    filter_health_export [("route1.gpx", ⟨none, none⟩)] [rawVO2]
      = Except.error "TypeError: comparison between datetime and NoneType" := rfl

/-! ### C8: workout window bounds are first/last encountered points -/

/-- Claim C8 (counterexample): a track whose points are out of chronological
order yields `startDate > endDate` — the invariant `startDate ≤ endDate` does
not hold for every sequence of points. -/
theorem extract_out_of_order_cex :
    extract_times_from_gpx [(30 : ℚ), 0] = (some 30, some 0) ∧ ¬ ((30 : ℚ) ≤ 0) :=
  ⟨rfl, by decide⟩

/-- Claim C8 (amended): the extractor returns the normalized timestamp of the
first-encountered point as `startDate` and that of the last-encountered point
as `endDate`; when the file's points are in chronological order the window
satisfies `startDate ≤ endDate`. -/
theorem extract_window_first_last (ts : List Time) (h : ts ≠ [])
    (hs : List.Pairwise (· ≤ ·) ts) :
    extract_times_from_gpx ts = (some (ts.head h), some (ts.getLast h))
      ∧ ts.head h ≤ ts.getLast h := by
  refine ⟨?_, ?_⟩
  · unfold extract_times_from_gpx
    rw [List.head?_eq_head h, List.getLast?_eq_getLast ts h]
  · match ts, h, hs with
    | a :: l, _, hs =>
      have hm := List.getLast_mem (l := a :: l) (by simp)
      rcases List.mem_cons.mp hm with he | hmem
      · simp only [List.head_cons]
        rw [show (a :: l).getLast (by simp) = a from he]
      · rcases List.pairwise_cons.mp hs with ⟨hrel, _⟩
        simpa using hrel _ hmem

/-- Witness for `extract_window_first_last` on a sorted two-point track. -/
theorem extract_window_first_last_witness :
    extract_times_from_gpx [(0 : ℚ), 1]
        = (some (([(0 : ℚ), 1]).head (by decide)), some (([(0 : ℚ), 1]).getLast (by decide)))
      ∧ ([(0 : ℚ), 1]).head (by decide) ≤ ([(0 : ℚ), 1]).getLast (by decide) :=
  extract_window_first_last [0, 1] (by decide) (by decide)

/-! ### Structural lemmas about the midpoint partitioner -/

theorem length_midpointList (l : List Time) : (midpointList l).length = l.length - 1 := by
  simp [midpointList]

theorem getElem_midpointList (l : List Time) (i : Nat) (h : i + 1 < l.length) :
    getElem (midpointList l) (i) (by simp [length_midpointList]; omega)
      = (getElem l (i + 1) h - getElem l (i) (by omega)) / 2 + getElem l (i) (by omega) := by
  simp [midpointList, List.getElem_zipWith, List.getElem_tail]

theorem length_dateListOf (s0 : TaggedSample) (rest : List TaggedSample) :
    (dateListOf (s0 :: rest)).length = (s0 :: rest).length + 1 := by
  simp [dateListOf, length_midpointList]

theorem dateListOf_zero (s0 : TaggedSample) (rest : List TaggedSample) :
    getElem (dateListOf (s0 :: rest)) (0) (by simp [dateListOf]) = s0.startDate := rfl

theorem dateListOf_succ (s0 : TaggedSample) (rest : List TaggedSample) (i : Nat)
    (h : i + 1 < (s0 :: rest).length) :
    getElem (dateListOf (s0 :: rest)) (i + 1) (by rw [length_dateListOf]; omega)
      = ((getElem (s0 :: rest) (i + 1) h).startDate
            - (getElem (s0 :: rest) (i) (Nat.lt_of_succ_lt h)).startDate) / 2
        + (getElem (s0 :: rest) (i) (Nat.lt_of_succ_lt h)).startDate := by
  have h' : i + 1 < ((s0 :: rest).map (fun s => s.startDate)).length := by
    simpa using h
  have hlen : i < (midpointList ((s0 :: rest).map (fun s => s.startDate))).length := by
    rw [length_midpointList]
    simp only [List.length_map]
    omega
  simp only [dateListOf, List.getElem_cons_succ]
  rw [List.getElem_append_left hlen]
  rw [getElem_midpointList _ i h']
  simp only [List.getElem_map, List.getElem_cons_succ]

theorem dateListOf_last (s0 : TaggedSample) (rest : List TaggedSample) :
    getElem (dateListOf (s0 :: rest)) ((s0 :: rest).length) (by rw [length_dateListOf]; omega)
      = (((s0 :: rest).getLast (by simp)).startDate) := by
  have hlen : (midpointList ((s0 :: rest).map (fun s => s.startDate))).length
      = rest.length := by
    simp [length_midpointList]
  simp only [dateListOf, List.length_cons, List.getElem_cons_succ]
  rw [List.getElem_append_right (by omega)]
  simp [hlen]

theorem length_assignMids (sub : List TaggedSample) (bl : List Time)
    (h : bl.length = sub.length + 1) :
    (assignMids sub bl).length = sub.length := by
  simp [assignMids, h]

theorem getElem_assignMids (sub : List TaggedSample) (bl : List Time)
    (h : bl.length = sub.length + 1) (i : Nat) (hi : i < sub.length) :
    getElem (assignMids sub bl) (i) (by rw [length_assignMids sub bl h]; exact hi)
      = mkOut (getElem sub (i) hi) (getElem bl (i) (by omega)) (getElem bl (i + 1) (by omega)) := by
  simp [assignMids, List.getElem_zipWith, List.getElem_zip, List.getElem_tail]

theorem subOf_sorted (df : List TaggedSample) (ty : String) :
    (subOf df ty).Pairwise leByStart :=
  List.sorted_insertionSort leByStart _

theorem subOf_type (df : List TaggedSample) (ty : String) :
    ∀ s ∈ subOf df ty, s.type = ty := by
  intro s hs
  simp only [subOf, sortByStart, List.mem_insertionSort, List.mem_filter,
    beq_iff_eq] at hs
  exact hs.2

theorem subOf_mem_df (df : List TaggedSample) (ty : String) :
    ∀ s ∈ subOf df ty, s ∈ df := by
  intro s hs
  simp only [subOf, sortByStart, List.mem_insertionSort, List.mem_filter] at hs
  exact hs.1

theorem mem_subOf (df : List TaggedSample) (s : TaggedSample) :
    s ∈ df → s ∈ subOf df s.type := by
  intro hs
  simp [subOf, sortByStart, List.mem_insertionSort, List.mem_filter, hs]

theorem processType_eq (df : List TaggedSample) (ty : String)
    (h2 : 2 ≤ (subOf df ty).length) :
    processType df ty = assignMids (subOf df ty) (dateListOf (subOf df ty)) := by
  rcases hsub : subOf df ty with _ | ⟨s0, _ | ⟨s1, rest⟩⟩
  · rw [hsub] at h2; simp at h2
  · rw [hsub] at h2; simp at h2
  · unfold processType
    rw [hsub]

theorem dateListOf_length (sub : List TaggedSample) (h : sub ≠ []) :
    (dateListOf sub).length = sub.length + 1 := by
  cases sub with
  | nil => exact absurd rfl h
  | cons s0 rest => exact length_dateListOf s0 rest

theorem length_processType (df : List TaggedSample) (ty : String) :
    (processType df ty).length = (subOf df ty).length := by
  rcases hsub : subOf df ty with _ | ⟨s0, _ | ⟨s1, rest⟩⟩
  · unfold processType; rw [hsub]; rfl
  · unfold processType; rw [hsub]; rfl
  · unfold processType
    rw [hsub]
    exact length_assignMids _ _ (length_dateListOf s0 (s1 :: rest))

theorem getElem_processType (df : List TaggedSample) (ty : String)
    (h2 : 2 ≤ (subOf df ty).length) (i : Nat) (hi : i < (subOf df ty).length) :
    getElem (processType df ty) (i) (by rw [length_processType]; exact hi)
      = mkOut (getElem (subOf df ty) (i) hi)
          (getElem (dateListOf (subOf df ty)) (i) (by
            rw [dateListOf_length _ (List.ne_nil_of_length_pos
              (Nat.lt_of_le_of_lt (Nat.zero_le i) hi))]
            omega))
          (getElem (dateListOf (subOf df ty)) (i + 1) (by
            rw [dateListOf_length _ (List.ne_nil_of_length_pos
              (Nat.lt_of_le_of_lt (Nat.zero_le i) hi))]
            omega)) := by
  have hne : subOf df ty ≠ [] :=
    List.ne_nil_of_length_pos (Nat.lt_of_le_of_lt (Nat.zero_le i) hi)
  rw [List.getElem_of_eq (processType_eq df ty h2)]
  exact getElem_assignMids _ _ (dateListOf_length _ hne) i hi

theorem uniqueTypes_mem (l : List String) (x : String) :
    x ∈ uniqueTypes l ↔ x ∈ l := by
  induction l with
  | nil => simp [uniqueTypes]
  | cons t ts ih =>
    by_cases hxt : x = t
    · simp [uniqueTypes, hxt]
    · simp [uniqueTypes, List.mem_filter, hxt, ih, bne_iff_ne]

theorem uniqueTypes_nodup (l : List String) : (uniqueTypes l).Nodup := by
  induction l with
  | nil => simp [uniqueTypes]
  | cons t ts ih =>
    rw [uniqueTypes, List.nodup_cons]
    constructor
    · intro hmem
      rcases List.mem_filter.mp hmem with ⟨_, hne⟩
      simp at hne
    · exact List.Nodup.filter _ ih


theorem processType_row_type (df : List TaggedSample) (ty : String) :
    ∀ r ∈ processType df ty, r.type = ty := by
  intro r hr
  unfold processType at hr
  rcases hsub : subOf df ty with _ | ⟨s0, _ | ⟨s1, rest⟩⟩ <;> rw [hsub] at hr
  · simp at hr
  · simp only [List.mem_singleton] at hr
    subst hr
    exact subOf_type df ty s0 (by rw [hsub]; exact List.mem_singleton_self s0)
  · rcases List.mem_iff_getElem.mp hr with ⟨i, hilt, hig⟩
    have hi : i < (s0 :: s1 :: rest).length := by
      rw [← length_assignMids _ _ (length_dateListOf s0 (s1 :: rest))]
      exact hilt
    rw [getElem_assignMids _ _ (length_dateListOf s0 (s1 :: rest)) i hi] at hig
    rw [← hig]
    exact subOf_type df ty _ (by rw [hsub]; exact List.getElem_mem hi)

theorem flatMap_filter_not_mem (df : List TaggedSample) (ty : String)
    (L : List String) (h : ty ∉ L) :
    L.flatMap (fun t => (processType df t).filter (fun r => r.type == ty)) = [] := by
  induction L with
  | nil => rfl
  | cons a L ih =>
    have hne : a ≠ ty := by rintro rfl; exact h (List.mem_cons_self a L)
    rw [List.flatMap_cons]
    rw [ih (fun hmem => h (List.mem_cons_of_mem a hmem))]
    rw [List.append_nil]
    rw [List.filter_eq_nil_iff]
    intro r hr
    have := processType_row_type df a r hr
    simp [this, hne]

theorem flatMap_filter_eq (df : List TaggedSample) (ty : String) (L : List String)
    (hnd : L.Nodup) (hmem : ty ∈ L) :
    L.flatMap (fun t => (processType df t).filter (fun r => r.type == ty))
      = processType df ty := by
  induction L with
  | nil => simp at hmem
  | cons a L ih =>
    rw [List.flatMap_cons]
    rcases List.mem_cons.mp hmem with rfl | hmemL
    · rw [flatMap_filter_not_mem df ty L ((List.nodup_cons.mp hnd).1)]
      rw [List.append_nil]
      rw [List.filter_eq_self.mpr]
      intro r hr
      simp [processType_row_type df ty r hr]
    · have hne : a ≠ ty := by
        rintro rfl
        exact (List.nodup_cons.mp hnd).1 hmemL
      rw [ih (List.nodup_cons.mp hnd).2 hmemL]
      have hnil : (processType df a).filter (fun r => r.type == ty) = [] := by
        rw [List.filter_eq_nil_iff]
        intro r hr
        simp [processType_row_type df a r hr, hne]
      rw [hnil, List.nil_append]

theorem typeRows_eq (df : List TaggedSample) (ty : String)
    (hty : ty ∈ df.map (fun s => s.type)) :
    typeRows df ty = processType df ty := by
  unfold typeRows getMidDates
  rw [List.filter_flatMap]
  exact flatMap_filter_eq df ty _ (uniqueTypes_nodup _) ((uniqueTypes_mem _ _).mpr hty)

theorem getElem_idx_congr {α : Type} (l : List α) (i j : Nat) (h : i = j)
    (hj : j < l.length) : getElem l (i) (h ▸ hj) = getElem l (j) hj := by
  subst h; rfl

theorem dateListOf_getElem_zero (sub : List TaggedSample) (h : sub ≠ []) :
    getElem (dateListOf sub) (0) (by rw [dateListOf_length _ h]; omega)
      = (getElem sub (0) (List.length_pos.mpr h)).startDate := by
  cases sub with
  | nil => exact absurd rfl h
  | cons s0 rest => rfl

theorem dateListOf_getElem_succ (sub : List TaggedSample) (i : Nat)
    (h : i + 1 < sub.length) :
    getElem (dateListOf sub) (i + 1) (by
        rw [dateListOf_length _ (List.ne_nil_of_length_pos (by omega))]; omega)
      = ((getElem sub (i + 1) h).startDate - (getElem sub (i) (Nat.lt_of_succ_lt h)).startDate) / 2
        + ((getElem sub (i) (Nat.lt_of_succ_lt h)).startDate) := by
  cases sub with
  | nil => simp at h
  | cons s0 rest => exact dateListOf_succ s0 rest i h

theorem dateListOf_getElem_last (sub : List TaggedSample) (hne : sub ≠ [])
    (i : Nat) (hieq : i = sub.length) :
    getElem (dateListOf sub) (i) (by rw [dateListOf_length _ hne]; omega)
      = (sub.getLast hne).startDate := by
  subst hieq
  cases sub with
  | nil => exact absurd rfl hne
  | cons s0 rest => exact dateListOf_last s0 rest

theorem dateListOf_mono (sub : List TaggedSample) (hs : sub.Pairwise leByStart)
    (i : Nat) (hi : i < sub.length) :
    getElem (dateListOf sub) (i) (by
        rw [dateListOf_length _ (List.ne_nil_of_length_pos (by omega))]; omega)
      ≤ getElem (dateListOf sub) (i + 1) (by
        rw [dateListOf_length _ (List.ne_nil_of_length_pos (by omega))]; omega) := by
  have hne : sub ≠ [] := List.ne_nil_of_length_pos (by omega)
  have hp := List.pairwise_iff_getElem.mp hs
  by_cases hlt : i + 1 < sub.length
  · rw [dateListOf_getElem_succ sub i hlt]
    cases i with
    | zero =>
      rw [dateListOf_getElem_zero sub hne]
      have h01 := hp 0 1 (by omega) (by omega) (by omega)
      simp only [leByStart] at h01
      linarith
    | succ j =>
      rw [dateListOf_getElem_succ sub j (by omega)]
      have h02 := hp j (j + 2) (by omega) (by omega) (by omega)
      have h01 := hp j (j + 1) (by omega) (by omega) (by omega)
      have h12 := hp (j + 1) (j + 2) (by omega) (by omega) (by omega)
      simp only [leByStart] at h02 h01 h12
      linarith
  · have hieq : i + 1 = sub.length := by omega
    rw [dateListOf_getElem_last sub hne (i + 1) hieq]
    rw [List.getLast_eq_getElem sub hne]
    cases i with
    | zero =>
      rw [dateListOf_getElem_zero sub hne]
      rw [getElem_idx_congr sub (sub.length - 1) 0 (by omega) (by omega)]
    | succ j =>
      rw [dateListOf_getElem_succ sub j (by omega)]
      rw [getElem_idx_congr sub (sub.length - 1) (j + 1) (by omega) (by omega)]
      have h01 := hp j (j + 1) (by omega) (by omega) (by omega)
      simp only [leByStart] at h01
      linarith

/-! ### C6 and C1: midpoint partition boundary claims -/

/-- Two same-type samples used to exhibit the boundary behavior concretely. -/
def cexA : TaggedSample := ⟨"X", 1, 0, 10, [], "w"⟩

/-- Second concrete sample: starts at 4, ends at 10. -/
def cexB : TaggedSample := ⟨"X", 1, 4, 10, [], "w"⟩

/-- Claim C6: for every type-subgroup of size at least 2 sorted ascending by
`startDate`, the assigned boundaries are contiguous and non-decreasing:
the per-type output has one row per subgroup row,
`midEndDate[i] = midStartDate[i+1]` for adjacent rows,
`midStartDate[0] = startDate[0]`, every interior shared boundary
`midEndDate[i]` equals the midpoint `start_i + (start_{i+1} - start_i)/2`,
and `midStartDate[i] ≤ midEndDate[i]` throughout. -/
theorem midpoint_partition_contiguous (df : List TaggedSample) (ty : String)
    (h2 : 2 ≤ (subOf df ty).length) :
    (typeRows df ty).length = (subOf df ty).length
    ∧ (∀ i (hi : i + 1 < (typeRows df ty).length),
        (getElem (typeRows df ty) (i) (Nat.lt_of_succ_lt hi)).midEndDate
          = (getElem (typeRows df ty) (i + 1) hi).midStartDate)
    ∧ ((typeRows df ty).head?).map (fun r => r.midStartDate)
        = ((subOf df ty).head?).map (fun s => s.startDate)
    ∧ (∀ i (hs : i + 1 < (subOf df ty).length) (ho : i < (typeRows df ty).length),
        (getElem (typeRows df ty) (i) ho).midEndDate
          = (getElem (subOf df ty) (i) (Nat.lt_of_succ_lt hs)).startDate
            + ((getElem (subOf df ty) (i + 1) hs).startDate
                - (getElem (subOf df ty) (i) (Nat.lt_of_succ_lt hs)).startDate) / 2)
    ∧ (∀ i (hi : i < (typeRows df ty).length),
        (getElem (typeRows df ty) (i) hi).midStartDate ≤ (getElem (typeRows df ty) (i) hi).midEndDate) := by
  have hne : subOf df ty ≠ [] := List.ne_nil_of_length_pos (by omega)
  have hhead := List.head_mem hne
  have hty : ty ∈ df.map (fun s => s.type) :=
    List.mem_map.mpr ⟨(subOf df ty).head hne, subOf_mem_df df ty _ hhead,
      subOf_type df ty _ hhead⟩
  have hout : typeRows df ty = processType df ty := typeRows_eq df ty hty
  have hlen : (typeRows df ty).length = (subOf df ty).length := by
    rw [hout, length_processType]
  refine ⟨hlen, ?_, ?_, ?_, ?_⟩
  · intro i hi
    have hi' : i + 1 < (subOf df ty).length := hlen ▸ hi
    have e1 : getElem (typeRows df ty) (i) (Nat.lt_of_succ_lt hi)
        = mkOut (getElem (subOf df ty) (i) (Nat.lt_of_succ_lt hi'))
            (getElem (dateListOf (subOf df ty)) (i) (by rw [dateListOf_length _ hne]; omega))
            (getElem (dateListOf (subOf df ty)) (i + 1) (by rw [dateListOf_length _ hne]; omega)) := by
      rw [List.getElem_of_eq hout]
      exact getElem_processType df ty h2 i (Nat.lt_of_succ_lt hi')
    have e2 : getElem (typeRows df ty) (i + 1) hi
        = mkOut (getElem (subOf df ty) (i + 1) hi')
            (getElem (dateListOf (subOf df ty)) (i + 1) (by rw [dateListOf_length _ hne]; omega))
            (getElem (dateListOf (subOf df ty)) (i + 2) (by rw [dateListOf_length _ hne]; omega)) := by
      rw [List.getElem_of_eq hout]
      exact getElem_processType df ty h2 (i + 1) hi'
    rw [e1, e2]
    rfl
  · have h0T : 0 < (typeRows df ty).length := by omega
    have h0S : 0 < (subOf df ty).length := by omega
    rw [List.head?_eq_getElem? (typeRows df ty), List.head?_eq_getElem? (subOf df ty)]
    rw [List.getElem?_eq_getElem h0T, List.getElem?_eq_getElem h0S]
    simp only [Option.map_some']
    have e0 : getElem (typeRows df ty) (0) h0T
        = mkOut (getElem (subOf df ty) (0) h0S)
            (getElem (dateListOf (subOf df ty)) (0) (by rw [dateListOf_length _ hne]; omega))
            (getElem (dateListOf (subOf df ty)) (1) (by rw [dateListOf_length _ hne]; omega)) := by
      rw [List.getElem_of_eq hout]
      exact getElem_processType df ty h2 0 h0S
    rw [e0]
    exact congrArg some (dateListOf_getElem_zero (subOf df ty) hne)
  · intro i hs ho
    have hi' : i < (subOf df ty).length := Nat.lt_of_succ_lt hs
    have e1 : getElem (typeRows df ty) (i) ho
        = mkOut (getElem (subOf df ty) (i) hi')
            (getElem (dateListOf (subOf df ty)) (i) (by rw [dateListOf_length _ hne]; omega))
            (getElem (dateListOf (subOf df ty)) (i + 1) (by rw [dateListOf_length _ hne]; omega)) := by
      rw [List.getElem_of_eq hout]
      exact getElem_processType df ty h2 i hi'
    rw [e1]
    show getElem (dateListOf (subOf df ty)) (i + 1) _ = _
    rw [dateListOf_getElem_succ (subOf df ty) i hs]
    ring
  · intro i hi
    have hi' : i < (subOf df ty).length := hlen ▸ hi
    have e1 : getElem (typeRows df ty) (i) hi
        = mkOut (getElem (subOf df ty) (i) hi')
            (getElem (dateListOf (subOf df ty)) (i) (by rw [dateListOf_length _ hne]; omega))
            (getElem (dateListOf (subOf df ty)) (i + 1) (by rw [dateListOf_length _ hne]; omega)) := by
      rw [List.getElem_of_eq hout]
      exact getElem_processType df ty h2 i hi'
    rw [e1]
    exact dateListOf_mono (subOf df ty) (subOf_sorted df ty) i hi'

/-- Witness for `midpoint_partition_contiguous` on a concrete two-row group. -/
theorem midpoint_partition_contiguous_witness :
    2 ≤ (subOf [cexA, cexB] "X").length
    ∧ ((typeRows [cexA, cexB] "X").length = (subOf [cexA, cexB] "X").length
      ∧ (∀ i (hi : i + 1 < (typeRows [cexA, cexB] "X").length),
          (getElem (typeRows [cexA, cexB] "X") (i) (Nat.lt_of_succ_lt hi)).midEndDate
            = (getElem (typeRows [cexA, cexB] "X") (i + 1) hi).midStartDate)
      ∧ ((typeRows [cexA, cexB] "X").head?).map (fun r => r.midStartDate)
          = ((subOf [cexA, cexB] "X").head?).map (fun s => s.startDate)
      ∧ (∀ i (hs : i + 1 < (subOf [cexA, cexB] "X").length)
            (ho : i < (typeRows [cexA, cexB] "X").length),
          (getElem (typeRows [cexA, cexB] "X") (i) ho).midEndDate
            = (getElem (subOf [cexA, cexB] "X") (i) (Nat.lt_of_succ_lt hs)).startDate
              + ((getElem (subOf [cexA, cexB] "X") (i + 1) hs).startDate
                  - (getElem (subOf [cexA, cexB] "X") (i) (Nat.lt_of_succ_lt hs)).startDate) / 2)
      ∧ (∀ i (hi : i < (typeRows [cexA, cexB] "X").length),
          (getElem (typeRows [cexA, cexB] "X") (i) hi).midStartDate
            ≤ (getElem (typeRows [cexA, cexB] "X") (i) hi).midEndDate)) :=
  ⟨by decide, midpoint_partition_contiguous [cexA, cexB] "X" (by decide)⟩

/-- Claim C1 (counterexample): on a two-sample subgroup with start dates 0
and 4 and end dates 10, the last row's assigned `midEndDate` is 4 — the last
sample's raw `startDate` — and not its raw `endDate` 10. -/
theorem last_boundary_cex :
    ((getMidDates [cexA, cexB]).getLast?).map (fun r => (r.midEndDate, r.endDate))
      = some (4, 10) ∧ (4 : ℚ) ≠ 10 :=
  ⟨rfl, by decide⟩

/-- Claim C1 (amended): for every type-subgroup of size at least 2 sorted
ascending by `startDate`, the last row's assigned `midEndDate` equals that
sample's raw `startDate` (`dateList` ends with `startDate.iloc[-1]`), not its
raw `endDate`. -/
theorem last_mid_boundary_eq_last_startDate (df : List TaggedSample) (ty : String)
    (h2 : 2 ≤ (subOf df ty).length) :
    ((typeRows df ty).getLast?).map (fun r => r.midEndDate)
      = ((subOf df ty).getLast?).map (fun s => s.startDate) := by
  have hne : subOf df ty ≠ [] := List.ne_nil_of_length_pos (by omega)
  have hhead := List.head_mem hne
  have hty : ty ∈ df.map (fun s => s.type) :=
    List.mem_map.mpr ⟨(subOf df ty).head hne, subOf_mem_df df ty _ hhead,
      subOf_type df ty _ hhead⟩
  have hout := typeRows_eq df ty hty
  have hlen : (typeRows df ty).length = (subOf df ty).length := by
    rw [hout, length_processType]
  have hneT : typeRows df ty ≠ [] := by
    intro he
    rw [he] at hlen
    simp at hlen
    omega
  have hsl : (subOf df ty).length - 1 < (subOf df ty).length := by omega
  have hkey : ((typeRows df ty).getLast hneT).midEndDate
      = ((subOf df ty).getLast hne).startDate := by
    rw [List.getLast_eq_getElem (typeRows df ty) hneT]
    rw [getElem_idx_congr (typeRows df ty) ((typeRows df ty).length - 1)
      ((subOf df ty).length - 1) (by omega) (by omega)]
    have e1 : getElem (typeRows df ty) ((subOf df ty).length - 1) (by omega)
        = mkOut (getElem (subOf df ty) ((subOf df ty).length - 1) hsl)
            (getElem (dateListOf (subOf df ty)) ((subOf df ty).length - 1) (by
              rw [dateListOf_length _ hne]; omega))
            (getElem (dateListOf (subOf df ty)) ((subOf df ty).length - 1 + 1) (by
              rw [dateListOf_length _ hne]; omega)) := by
      rw [List.getElem_of_eq hout]
      exact getElem_processType df ty h2 _ hsl
    rw [e1]
    exact dateListOf_getElem_last (subOf df ty) hne ((subOf df ty).length - 1 + 1)
      (by omega)
  rw [List.getLast?_eq_getLast _ hneT, List.getLast?_eq_getLast _ hne]
  simp only [Option.map_some']
  exact congrArg some hkey

/-- Witness for `last_mid_boundary_eq_last_startDate` on the same concrete
two-row group. -/
theorem last_mid_boundary_witness :
    2 ≤ (subOf [cexA, cexB] "X").length
    ∧ ((typeRows [cexA, cexB] "X").getLast?).map (fun r => r.midEndDate)
        = ((subOf [cexA, cexB] "X").getLast?).map (fun s => s.startDate) :=
  ⟨by decide, last_mid_boundary_eq_last_startDate [cexA, cexB] "X" (by decide)⟩

/-! ### Row-provenance lemmas for the gating, filtering and frame claims -/

/-- An output row carries exactly the fields of a tagged sample (only the two
midpoint boundary columns are new). -/
def sameBase (r : OutRow) (t : TaggedSample) : Prop :=
  r.type = t.type ∧ r.value = t.value ∧ r.startDate = t.startDate
    ∧ r.endDate = t.endDate ∧ r.extra = t.extra ∧ r.workout_date = t.workout_date

theorem sameBase_mkOut (t : TaggedSample) (a b : Time) : sameBase (mkOut t a b) t :=
  ⟨rfl, rfl, rfl, rfl, rfl, rfl⟩

theorem getMidDates_mem (df : List TaggedSample) (t : TaggedSample) (ht : t ∈ df) :
    ∃ r ∈ getMidDates df, sameBase r t := by
  have hty : t.type ∈ uniqueTypes (df.map (fun x => x.type)) :=
    (uniqueTypes_mem _ _).mpr (List.mem_map.mpr ⟨t, ht, rfl⟩)
  have hsub : t ∈ subOf df t.type := mem_subOf df t ht
  have hex : ∃ r ∈ processType df t.type, sameBase r t := by
    rcases List.mem_iff_getElem.mp hsub with ⟨i, hi, hig⟩
    by_cases h2 : 2 ≤ (subOf df t.type).length
    · refine ⟨getElem (processType df t.type) (i) (by rw [length_processType]; exact hi),
        List.getElem_mem _, ?_⟩
      rw [getElem_processType df t.type h2 i hi, hig]
      exact sameBase_mkOut _ _ _
    · have h1 : (subOf df t.type).length = 1 := by omega
      obtain ⟨x, hx⟩ := List.length_eq_one.mp h1
      have htx : t = x := by
        rw [hx] at hsub
        simpa using hsub
      refine ⟨mkOut x x.startDate x.endDate, ?_, ?_⟩
      · unfold processType
        rw [hx]
        exact List.mem_singleton_self _
      · rw [htx]
        exact sameBase_mkOut _ _ _
  rcases hex with ⟨r, hr, hb⟩
  exact ⟨r, List.mem_flatMap.mpr ⟨t.type, hty, hr⟩, hb⟩

theorem getMidDates_mem_rev (df : List TaggedSample) (r : OutRow)
    (hr : r ∈ getMidDates df) : ∃ t ∈ df, sameBase r t := by
  unfold getMidDates at hr
  rcases List.mem_flatMap.mp hr with ⟨ty, _, hrp⟩
  unfold processType at hrp
  rcases hsub : subOf df ty with _ | ⟨s0, _ | ⟨s1, rest⟩⟩ <;> rw [hsub] at hrp
  · simp at hrp
  · simp only [List.mem_singleton] at hrp
    subst hrp
    refine ⟨s0, subOf_mem_df df ty s0 (by rw [hsub]; exact List.mem_singleton_self _), ?_⟩
    exact sameBase_mkOut _ _ _
  · rcases List.mem_iff_getElem.mp hrp with ⟨i, hilt, hig⟩
    have hi : i < (s0 :: s1 :: rest).length := by
      rw [← length_assignMids _ _ (length_dateListOf s0 (s1 :: rest))]
      exact hilt
    rw [getElem_assignMids _ _ (length_dateListOf s0 (s1 :: rest)) i hi] at hig
    refine ⟨getElem (s0 :: s1 :: rest) (i) hi,
      subOf_mem_df df ty _ (by rw [hsub]; exact List.getElem_mem hi), ?_⟩
    rw [← hig]
    exact sameBase_mkOut _ _ _

theorem selectRows_subset (health : List Sample) (w : Window) (sel : List Sample)
    (h : selectRows health w = Except.ok sel) : ∀ s ∈ sel, s ∈ health := by
  obtain ⟨ws, we⟩ := w
  cases ws <;> cases we <;> simp only [selectRows] at h
  case some.some =>
    rw [Except.ok.injEq] at h
    subst h
    intro s hs
    exact (List.mem_filter.mp hs).1
  all_goals
    split at h
    · rw [Except.ok.injEq] at h
      subst h
      intro s hs
      simp at hs
    · cases h

/-! ### C5: VO2Max gating -/

/-- Claim C5: for a workout window whose selected group is `sel`, if the
group's types do not include `VO2Max` the window contributes zero rows (the
pipeline's result is exactly that of the remaining windows); otherwise the
group's midpoint-annotated rows are emitted and every selected sample appears
among them, tagged with `workout_date` equal to the window identifier and
with all its other fields intact. -/
theorem vo2max_gating (wid : String) (w : Window) (wins : List (String × Window))
    (health : List Sample) (sel : List Sample) (res : List (List OutRow))
    (hsel : selectRows health w = Except.ok sel)
    (h : buildGroups ((wid, w) :: wins) health = Except.ok res) :
    (¬ sel.any (fun s => s.type == "VO2Max") → buildGroups wins health = Except.ok res)
    ∧ (sel.any (fun s => s.type == "VO2Max") →
        ∃ tailres, buildGroups wins health = Except.ok tailres
          ∧ res = getMidDates (sel.map (tagRow wid)) :: tailres
          ∧ ∀ s ∈ sel, ∃ r ∈ getMidDates (sel.map (tagRow wid)),
              r.workout_date = wid ∧ r.type = s.type ∧ r.value = s.value
                ∧ r.startDate = s.startDate ∧ r.endDate = s.endDate
                ∧ r.extra = s.extra) := by
  unfold buildGroups at h
  rw [hsel] at h
  dsimp only at h
  cases hb : buildGroups wins health <;> rw [hb] at h
  · cases h
  · dsimp only at h
    constructor
    · intro hneg
      rw [if_neg hneg] at h
      rw [Except.ok.injEq] at h
      subst h
      rfl
    · intro hpos
      rw [if_pos hpos] at h
      rw [Except.ok.injEq] at h
      refine ⟨_, rfl, h.symm, ?_⟩
      intro s hs
      have hmem : tagRow wid s ∈ sel.map (tagRow wid) := List.mem_map_of_mem _ hs
      rcases getMidDates_mem _ _ hmem with ⟨r, hr, hb'⟩
      rcases hb' with ⟨h1, h2, h3, h4, h5, h6⟩
      exact ⟨r, hr, h6, h1, h2, h3, h4, h5⟩

/-- Concrete window containing `wSample`. -/
def win0 : Window := ⟨some 0, some 2000⟩

/-- Witness for `vo2max_gating` on a one-window, one-sample pipeline. -/
theorem vo2max_gating_witness :
    selectRows [wSample] win0 = Except.ok [wSample]
    ∧ buildGroups [("run1.gpx", win0)] [wSample]
        = Except.ok [getMidDates ([wSample].map (tagRow "run1.gpx"))]
    ∧ ((¬ ([wSample] : List Sample).any (fun s => s.type == "VO2Max") →
          buildGroups [] [wSample] = Except.ok [getMidDates ([wSample].map (tagRow "run1.gpx"))])
      ∧ (([wSample] : List Sample).any (fun s => s.type == "VO2Max") →
          ∃ tailres, buildGroups [] [wSample] = Except.ok tailres
            ∧ [getMidDates ([wSample].map (tagRow "run1.gpx"))]
                = getMidDates (([wSample] : List Sample).map (tagRow "run1.gpx")) :: tailres
            ∧ ∀ s ∈ ([wSample] : List Sample),
                ∃ r ∈ getMidDates (([wSample] : List Sample).map (tagRow "run1.gpx")),
                  r.workout_date = "run1.gpx" ∧ r.type = s.type ∧ r.value = s.value
                    ∧ r.startDate = s.startDate ∧ r.endDate = s.endDate
                    ∧ r.extra = s.extra)) :=
  ⟨rfl, rfl, vo2max_gating "run1.gpx" win0 [] [wSample] [wSample] _ rfl rfl⟩

/-! ### C9 and C10: numeric filtering and frame preservation -/

/-- The raw row `r` normalizes to the sample `s`: its value parsed as the
number `v` and both date strings parsed and converted to instants, all other
fields carried over unchanged. -/
def normalizes (r : RawRow) (s : Sample) : Prop :=
  ∃ v sd ed, r.value = some v ∧ parse_date_with_offset r.startDate = some sd
    ∧ parse_date_with_offset r.endDate = some ed
    ∧ s = ⟨r.type, v, toInstant sd, toInstant ed, r.extra⟩

theorem prepRows_mem (rows : List RawRow) (out : List Sample)
    (h : prepRows rows = Except.ok out) :
    ∀ s ∈ out, ∃ r ∈ rows, normalizes r s := by
  induction rows generalizing out with
  | nil =>
    cases h
    simp
  | cons r rest ih =>
    unfold prepRows at h
    cases hv : r.value <;> rw [hv] at h
    · cases h
    · cases hsd : parse_date_with_offset r.startDate <;> rw [hsd] at h
      · cases h
      · cases hed : parse_date_with_offset r.endDate <;> rw [hed] at h
        · cases h
        · dsimp only at h
          cases hrest : prepRows rest <;> rw [hrest] at h
          · cases h
          · dsimp only at h
            rw [Except.ok.injEq] at h
            subst h
            intro s hs
            rcases List.mem_cons.mp hs with rfl | htl
            · exact ⟨r, List.mem_cons_self r rest, _, _, _, hv, hsd, hed, rfl⟩
            · rcases ih _ hrest s htl with ⟨r', hr', hn⟩
              exact ⟨r', List.mem_cons_of_mem r hr', hn⟩

theorem prepRows_forall (rows : List RawRow) (out : List Sample)
    (h : prepRows rows = Except.ok out) :
    ∀ r ∈ rows, ∃ s ∈ out, normalizes r s := by
  induction rows generalizing out with
  | nil => simp
  | cons r rest ih =>
    unfold prepRows at h
    cases hv : r.value <;> rw [hv] at h
    · cases h
    · cases hsd : parse_date_with_offset r.startDate <;> rw [hsd] at h
      · cases h
      · cases hed : parse_date_with_offset r.endDate <;> rw [hed] at h
        · cases h
        · dsimp only at h
          cases hrest : prepRows rest <;> rw [hrest] at h
          · cases h
          · dsimp only at h
            rw [Except.ok.injEq] at h
            subst h
            intro r' hr'
            rcases List.mem_cons.mp hr' with rfl | htl
            · exact ⟨_, List.mem_cons_self _ _, _, _, _, hv, hsd, hed, rfl⟩
            · rcases ih _ hrest r' htl with ⟨s, hsmem, hn⟩
              exact ⟨s, List.mem_cons_of_mem _ hsmem, hn⟩

theorem buildGroups_rows (wins : List (String × Window)) (health : List Sample)
    (res : List (List OutRow)) (h : buildGroups wins health = Except.ok res) :
    ∀ g ∈ res, ∀ o ∈ g, ∃ s ∈ health, o.type = s.type ∧ o.value = s.value
      ∧ o.startDate = s.startDate ∧ o.endDate = s.endDate ∧ o.extra = s.extra := by
  induction wins generalizing res with
  | nil =>
    cases h
    simp
  | cons p rest ih =>
    obtain ⟨wid, w⟩ := p
    unfold buildGroups at h
    cases hsel : selectRows health w <;> rw [hsel] at h
    · cases h
    · dsimp only at h
      rename_i sel
      cases hb : buildGroups rest health <;> rw [hb] at h
      · cases h
      · dsimp only at h
        rename_i tail
        have hgroup : ∀ o ∈ getMidDates (sel.map (tagRow wid)),
            ∃ s ∈ health, o.type = s.type ∧ o.value = s.value
              ∧ o.startDate = s.startDate ∧ o.endDate = s.endDate
              ∧ o.extra = s.extra := by
          intro o ho
          rcases getMidDates_mem_rev _ o ho with ⟨t, htm, hbase⟩
          rcases List.mem_map.mp htm with ⟨s, hsmem, hts⟩
          rcases hbase with ⟨h1, h2, h3, h4, h5, _⟩
          subst hts
          exact ⟨s, selectRows_subset health w sel hsel s hsmem, h1, h2, h3, h4, h5⟩
        split at h <;> rw [Except.ok.injEq] at h <;> subst h
        · intro g hg o ho
          rcases List.mem_cons.mp hg with rfl | hgtl
          · exact hgroup o ho
          · exact ih _ hb g hgtl o ho
        · exact ih _ hb

theorem output_row_source (wins : List (String × Window)) (rows : List RawRow)
    (out : List OutRow) (h : filter_health_export wins rows = Except.ok out) :
    ∀ o ∈ out, ∃ r ∈ rows, r.value.isSome
      ∧ normalizes r ⟨o.type, o.value, o.startDate, o.endDate, o.extra⟩ := by
  unfold filter_health_export at h
  cases hp : prepareHealth rows <;> rw [hp] at h
  · cases h
  · dsimp only at h
    rename_i health
    cases hb : buildGroups wins health <;> rw [hb] at h
    · cases h
    · dsimp only at h
      rename_i res
      split at h
      · cases h
      · rw [Except.ok.injEq] at h
        subst h
        intro o ho
        rcases List.mem_flatten.mp ho with ⟨g, hg, hog⟩
        rcases buildGroups_rows wins health res hb g hg o hog
          with ⟨s, hsmem, h1, h2, h3, h4, h5⟩
        rcases prepRows_mem _ _ hp s hsmem with ⟨r, hrmem, hn⟩
        refine ⟨r, (List.mem_filter.mp hrmem).1, ?_, ?_⟩
        · exact (List.mem_filter.mp hrmem).2
        · rcases hn with ⟨v, sd, ed, hv, hsd, hed, hseq⟩
          refine ⟨v, sd, ed, hv, hsd, hed, ?_⟩
          rw [hseq] at h1 h2 h3 h4 h5
          cases o
          simp only at h1 h2 h3 h4 h5 ⊢
          subst h1 h2 h3 h4 h5
          rfl

/-- Claim C9: rows whose `value` does not parse as numeric are dropped before
timestamp normalization and any later stage — preparing the table is the same
as preparing only the numeric rows (so unparseable dates on dropped rows are
never even looked at) — every prepared sample stems from a numeric row, every
numeric row is retained at this stage, and every pipeline output row stems
from a numeric input row. -/
theorem numeric_filtering (rows : List RawRow) (samples : List Sample)
    (wins : List (String × Window)) (out : List OutRow)
    (hprep : prepareHealth rows = Except.ok samples)
    (hrun : filter_health_export wins rows = Except.ok out) :
    prepareHealth (rows.filter (fun r => r.value.isSome)) = prepareHealth rows
    ∧ (∀ s ∈ samples, ∃ r ∈ rows, r.value.isSome ∧ normalizes r s)
    ∧ (∀ r ∈ rows, r.value.isSome → ∃ s ∈ samples, normalizes r s)
    ∧ (∀ o ∈ out, ∃ r ∈ rows, r.value.isSome ∧ r.value = some o.value
        ∧ r.type = o.type) := by
  unfold prepareHealth at hprep ⊢
  refine ⟨?_, ?_, ?_, ?_⟩
  · rw [List.filter_eq_self.mpr (fun a ha => (List.mem_filter.mp ha).2)]
  · intro s hs
    rcases prepRows_mem _ _ hprep s hs with ⟨r, hrmem, hn⟩
    exact ⟨r, (List.mem_filter.mp hrmem).1, (List.mem_filter.mp hrmem).2, hn⟩
  · intro r hr hsome
    exact prepRows_forall _ _ hprep r (List.mem_filter.mpr ⟨hr, hsome⟩)
  · intro o ho
    rcases output_row_source wins rows out hrun o ho
      with ⟨r, hr, hsome, v, sd, ed, hv, _, _, hseq⟩
    rw [Sample.mk.injEq] at hseq
    obtain ⟨h1, h2, _, _, _⟩ := hseq
    exact ⟨r, hr, hsome, by rw [hv, h2], h1.symm⟩

/-- Non-numeric row with unparseable date strings: dropped by the numeric
filter before its dates would ever be parsed. -/
def rawBad : RawRow := ⟨"HeartRate", none, "not a date", "alsonot a date", []⟩

/-- The normalized sample produced from `rawVO2`. -/
def vSample : Sample :=
  ⟨"VO2Max", 40, toInstant ⟨2024, 1, 1, 10, 5, 0, 0⟩,
    toInstant ⟨2024, 1, 1, 10, 6, 0, 0⟩, []⟩

/-- A wide workout window containing `vSample`. -/
def winBig : Window := ⟨some 0, some 99999999999999⟩

/-- The single output row of the one-window, one-sample concrete run. -/
def outVO2 : OutRow :=
  ⟨"VO2Max", 40, toInstant ⟨2024, 1, 1, 10, 5, 0, 0⟩,
    toInstant ⟨2024, 1, 1, 10, 6, 0, 0⟩, [], "run1.gpx",
    toInstant ⟨2024, 1, 1, 10, 5, 0, 0⟩, toInstant ⟨2024, 1, 1, 10, 6, 0, 0⟩⟩

/-- Witness for `numeric_filtering` on a concrete run containing a
non-numeric row with garbage dates. -/
theorem numeric_filtering_witness :
    prepareHealth [rawVO2, rawBad] = Except.ok [vSample]
    ∧ filter_health_export [("run1.gpx", winBig)] [rawVO2, rawBad]
        = Except.ok [outVO2]
    ∧ (prepareHealth ([rawVO2, rawBad].filter (fun r => r.value.isSome))
          = prepareHealth [rawVO2, rawBad]
      ∧ (∀ s ∈ [vSample], ∃ r ∈ [rawVO2, rawBad], r.value.isSome ∧ normalizes r s)
      ∧ (∀ r ∈ [rawVO2, rawBad], r.value.isSome →
          ∃ s ∈ [vSample], normalizes r s)
      ∧ (∀ o ∈ [outVO2], ∃ r ∈ [rawVO2, rawBad], r.value.isSome
          ∧ r.value = some o.value ∧ r.type = o.type)) :=
  ⟨rfl, rfl,
    numeric_filtering [rawVO2, rawBad] [vSample] [("run1.gpx", winBig)] [outVO2] rfl rfl⟩

/-- Claim C10: the pipeline never modifies the original fields of a retained
row — every output row carries the `type`, numeric `value`, normalized
`startDate`/`endDate` and all other columns of some input row unchanged;
tagging and midpoint partitioning only added `workout_date`, `midStartDate`
and `midEndDate`. -/
theorem frame_preservation (wins : List (String × Window)) (rows : List RawRow)
    (out : List OutRow) (h : filter_health_export wins rows = Except.ok out) :
    ∀ o ∈ out, ∃ r ∈ rows, ∃ sd ed,
      parse_date_with_offset r.startDate = some sd
      ∧ parse_date_with_offset r.endDate = some ed
      ∧ o.type = r.type ∧ r.value = some o.value
      ∧ o.startDate = toInstant sd ∧ o.endDate = toInstant ed
      ∧ o.extra = r.extra := by
  intro o ho
  rcases output_row_source wins rows out h o ho
    with ⟨r, hr, _, v, sd, ed, hv, hsd, hed, hseq⟩
  rw [Sample.mk.injEq] at hseq
  obtain ⟨h1, h2, h3, h4, h5⟩ := hseq
  exact ⟨r, hr, sd, ed, hsd, hed, h1, by rw [hv, h2], h3, h4, h5⟩

/-- Witness for `frame_preservation` on the same concrete run. -/
theorem frame_preservation_witness :
    filter_health_export [("run1.gpx", winBig)] [rawVO2, rawBad]
        = Except.ok [outVO2]
    ∧ (∀ o ∈ [outVO2], ∃ r ∈ [rawVO2, rawBad], ∃ sd ed,
        parse_date_with_offset r.startDate = some sd
        ∧ parse_date_with_offset r.endDate = some ed
        ∧ o.type = r.type ∧ r.value = some o.value
        ∧ o.startDate = toInstant sd ∧ o.endDate = toInstant ed
        ∧ o.extra = r.extra) :=
  ⟨rfl, frame_preservation [("run1.gpx", winBig)] [rawVO2, rawBad] [outVO2] rfl⟩

/-! ### C7: offset parsing round trip -/

theorem digitChar_spec (d : Nat) (h : d < 10) :
    (Nat.digitChar d).isDigit = true ∧ c2n (Nat.digitChar d) = d := by
  interval_cases d <;> exact ⟨rfl, rfl⟩

theorem val2_digitChar (a b : Nat) (ha : a < 10) (hb : b < 10) :
    val2 (Nat.digitChar a) (Nat.digitChar b) = 10 * a + b := by
  unfold val2
  rw [(digitChar_spec a ha).2, (digitChar_spec b hb).2]

theorem val4_digitChar (a b c d : Nat) (ha : a < 10) (hb : b < 10) (hc : c < 10)
    (hd : d < 10) :
    val4 (Nat.digitChar a) (Nat.digitChar b) (Nat.digitChar c) (Nat.digitChar d)
      = 1000 * a + 100 * b + 10 * c + d := by
  unfold val4
  rw [(digitChar_spec a ha).2, (digitChar_spec b hb).2, (digitChar_spec c hc).2,
    (digitChar_spec d hd).2]

theorem slice25 (c1 c2 c3 c4 c5 c6 c7 c8 c9 c10 c11 c12 c13 c14 c15 c16 c17 c18 c19 c20 c21 c22 c23 c24 c25 : Char) :
    (List.take (([c1, c2, c3, c4, c5, c6, c7, c8, c9, c10, c11, c12, c13, c14, c15, c16, c17, c18, c19, c20, c21, c22, c23, c24, c25] : List Char).length - 6) [c1, c2, c3, c4, c5, c6, c7, c8, c9, c10, c11, c12, c13, c14, c15, c16, c17, c18, c19, c20, c21, c22, c23, c24, c25]
      = [c1, c2, c3, c4, c5, c6, c7, c8, c9, c10, c11, c12, c13, c14, c15, c16, c17, c18, c19])
    ∧ (List.drop (([c1, c2, c3, c4, c5, c6, c7, c8, c9, c10, c11, c12, c13, c14, c15, c16, c17, c18, c19, c20, c21, c22, c23, c24, c25] : List Char).length - 5) [c1, c2, c3, c4, c5, c6, c7, c8, c9, c10, c11, c12, c13, c14, c15, c16, c17, c18, c19, c20, c21, c22, c23, c24, c25]
      = [c21, c22, c23, c24, c25]) :=
  ⟨rfl, rfl⟩

theorem parseDT_digits (y mo d hh mi se : Nat) (h2 : y ≤ 9999) (h4 : mo ≤ 12)
    (h5 : d ≤ 31) (h7 : hh ≤ 23) (h8 : mi ≤ 59) (h9 : se ≤ 59) :
    parseDT [Nat.digitChar (y / 1000), Nat.digitChar (y / 100 % 10),
      Nat.digitChar (y / 10 % 10), Nat.digitChar (y % 10), '-',
      Nat.digitChar (mo / 10), Nat.digitChar (mo % 10), '-',
      Nat.digitChar (d / 10), Nat.digitChar (d % 10), ' ',
      Nat.digitChar (hh / 10), Nat.digitChar (hh % 10), ':',
      Nat.digitChar (mi / 10), Nat.digitChar (mi % 10), ':',
      Nat.digitChar (se / 10), Nat.digitChar (se % 10)]
      = some (y, mo, d, hh, mi, se) := by
  have b1 : y / 1000 < 10 := by omega
  have b2 : y / 100 % 10 < 10 := by omega
  have b3 : y / 10 % 10 < 10 := by omega
  have b4 : y % 10 < 10 := by omega
  have b5 : mo / 10 < 10 := by omega
  have b6 : mo % 10 < 10 := by omega
  have b7 : d / 10 < 10 := by omega
  have b8 : d % 10 < 10 := by omega
  have b9 : hh / 10 < 10 := by omega
  have b10 : hh % 10 < 10 := by omega
  have b11 : mi / 10 < 10 := by omega
  have b12 : mi % 10 < 10 := by omega
  have b13 : se / 10 < 10 := by omega
  have b14 : se % 10 < 10 := by omega
  simp only [parseDT]
  simp only [(digitChar_spec _ b1).1, (digitChar_spec _ b2).1, (digitChar_spec _ b3).1,
    (digitChar_spec _ b4).1, (digitChar_spec _ b5).1, (digitChar_spec _ b6).1,
    (digitChar_spec _ b7).1, (digitChar_spec _ b8).1, (digitChar_spec _ b9).1,
    (digitChar_spec _ b10).1, (digitChar_spec _ b11).1, (digitChar_spec _ b12).1,
    (digitChar_spec _ b13).1, (digitChar_spec _ b14).1, Bool.and_self, if_true]
  rw [val4_digitChar _ _ _ _ b1 b2 b3 b4, val2_digitChar _ _ b5 b6,
    val2_digitChar _ _ b7 b8, val2_digitChar _ _ b9 b10, val2_digitChar _ _ b11 b12,
    val2_digitChar _ _ b13 b14]
  simp only [Option.some.injEq, Prod.mk.injEq]
  omega

theorem daysInMonth_le (y m : Nat) : daysInMonth y m ≤ 31 := by
  unfold daysInMonth
  split
  · split <;> omega
  · split <;> omega

theorem parseOff_digits (off : Int) (h : off.natAbs ≤ 1439) :
    parseOff [(if off < 0 then '-' else '+'),
      Nat.digitChar (off.natAbs / 60 / 10), Nat.digitChar (off.natAbs / 60 % 10),
      Nat.digitChar (off.natAbs % 60 / 10), Nat.digitChar (off.natAbs % 60 % 10)]
      = some off := by
  have b1 : off.natAbs / 60 / 10 < 10 := by omega
  have b2 : off.natAbs / 60 % 10 < 10 := by omega
  have b3 : off.natAbs % 60 / 10 < 10 := by omega
  have b4 : off.natAbs % 60 % 10 < 10 := by omega
  simp only [parseOff]
  simp only [(digitChar_spec _ b1).1, (digitChar_spec _ b2).1, (digitChar_spec _ b3).1,
    (digitChar_spec _ b4).1, Bool.and_self, if_true]
  rw [val2_digitChar _ _ b1 b2, val2_digitChar _ _ b3 b4]
  by_cases hneg : off < 0
  · rw [if_pos hneg, if_pos (rfl : ('-' : Char) = '-')]
    simp only [Option.some.injEq]
    omega
  · rw [if_neg hneg]
    rw [if_neg (by decide : ¬ ('+' = '-'))]
    simp only [Option.some.injEq]
    omega

/-- Claim C7: for every valid encoding-B value, parsing its rendered
`"YYYY-MM-DD HH:MM:SS ±HHMM"` string returns exactly the original
timezone-aware value — identical wall-clock fields and a UTC offset of
`sign * (HH * 60 + MM)` minutes taken from the last five characters — so
re-rendering at that offset reproduces the original string (round trip). -/
theorem offset_parse_round_trip (t : BDateTime) (h : validB t) :
    parse_date_with_offset (renderB t) = some t := by
  obtain ⟨y, mo, d, hh, mi, se, off⟩ := t
  obtain ⟨h1, h2, h3, h4, h5, h6, h7, h8, h9, h10⟩ := h
  simp only at h1 h2 h3 h4 h5 h6 h7 h8 h9 h10
  have hdata : (renderB ⟨y, mo, d, hh, mi, se, off⟩).data
      = [Nat.digitChar (y / 1000), Nat.digitChar (y / 100 % 10),
         Nat.digitChar (y / 10 % 10), Nat.digitChar (y % 10), '-',
         Nat.digitChar (mo / 10), Nat.digitChar (mo % 10), '-',
         Nat.digitChar (d / 10), Nat.digitChar (d % 10), ' ',
         Nat.digitChar (hh / 10), Nat.digitChar (hh % 10), ':',
         Nat.digitChar (mi / 10), Nat.digitChar (mi % 10), ':',
         Nat.digitChar (se / 10), Nat.digitChar (se % 10), ' ',
         (if (off : Int) < 0 then '-' else '+'),
         Nat.digitChar (off.natAbs / 60 / 10), Nat.digitChar (off.natAbs / 60 % 10),
         Nat.digitChar (off.natAbs % 60 / 10), Nat.digitChar (off.natAbs % 60 % 10)] := rfl
  rw [parse_date_with_offset]
  rw [hdata]
  rw [(slice25 _ _ _ _ _ _ _ _ _ _ _ _ _ _ _ _ _ _ _ _ _ _ _ _ _).1, (slice25 _ _ _ _ _ _ _ _ _ _ _ _ _ _ _ _ _ _ _ _ _ _ _ _ _).2]
  rw [parseDT_digits y mo d hh mi se h2 h4 (by have := daysInMonth_le y mo; omega) h7 h8 h9]
  rw [parseOff_digits off h10]
  dsimp only
  rw [if_pos ⟨h1, h3, h4, h5, h6, h7, h8, h9, h10⟩]

/-- Concrete encoding-B value with a negative offset. -/
def w7 : BDateTime := ⟨2024, 1, 1, 10, 5, 0, -90⟩

/-- Witness for `offset_parse_round_trip` at a concrete value. -/
theorem offset_parse_round_trip_witness :
    validB w7 ∧ parse_date_with_offset (renderB w7) = some w7 :=
  ⟨by decide, offset_parse_round_trip w7 (by decide)⟩
